import Mathlib

/-!
Verification development for the MEG_DSP streaming filter pipeline.

Shallow embedding of `src/Filter.py` (FilterManager, BandPass, Notch, PCA,
IncrementalPCA, Differential) and `src/DataSource.py` (MockSignal,
ThreadedGenerator).  Chunks of samples are modelled as lists of channel rows
over the rationals (the numerics are exact stand-ins for numpy doubles);
the MockSignal tone generator, which uses `np.sin`, is modelled over the
reals.
-/

namespace MEGDSP

/-- A chunk: a 2-D buffer of shape `[numChannels, numSamples]`,
one inner list per channel (`Filter.py` passes numpy arrays of this shape). -/
abbrev Chunk := List (List ℚ)

/-- The duck-typed filter capability seen by the manager: any object with a
`process_chunk(data) -> data` method.  At the manager level a filter's
`process_chunk` at a given instant is a function from chunk to chunk. -/
abbrev ProcFun := Chunk → Chunk

/-! ### FilterManager (`src/Filter.py` lines 277-339)

`self.filters` is a Python `dict[str, Filter]`; iteration order of a dict is
insertion order, and assigning to an existing key keeps its position.  We
embed it as an association list with unique keys kept in insertion order. -/

/-- State of `FilterManager.__init__`: `raw_stream = None`, `filters = {}`.
The bound stream, when present, is a (finite prefix of a) sequence whose
elements are either a chunk or the Python `None` sentinel. -/
structure FilterManager where
  raw_stream : Option (List (Option Chunk))
  filters : List (String × ProcFun)

/-- A fresh manager: `FilterManager()`. -/
def FilterManager.init : FilterManager := ⟨none, []⟩

/-- `add_raw_stream(raw_stream)`: binds the upstream stream. -/
def FilterManager.add_raw_stream (m : FilterManager) (s : List (Option Chunk)) :
    FilterManager :=
  { m with raw_stream := some s }

/-- `self.filters[filter_name] = filter_obj` on a Python dict: replace in
place when the key exists, else append at the end (insertion order). -/
def dictInsert (fs : List (String × ProcFun)) (name : String) (f : ProcFun) :
    List (String × ProcFun) :=
  if fs.any (fun p => p.1 = name) then
    fs.map (fun p => if p.1 = name then (name, f) else p)
  else
    fs ++ [(name, f)]

/-- `FilterManager.add_filter(filter_name, filter_obj)` (lines 290-292). -/
def FilterManager.add_filter (m : FilterManager) (name : String) (f : ProcFun) :
    FilterManager :=
  { m with filters := dictInsert m.filters name f }

/-- `FilterManager.remove_filter(filter_name)` (lines 294-305): `"all"`
clears the dict; an unknown name prints a warning and is a no-op; otherwise
`del self.filters[filter_name]`. -/
def FilterManager.remove_filter (m : FilterManager) (name : String) :
    FilterManager :=
  if name = "all" then { m with filters := [] }
  else if m.filters.all (fun p => p.1 ≠ name) then m
  else { m with filters := m.filters.filter (fun p => p.1 ≠ name) }

/-- `FilterManager.list_filters()` (lines 307-309): `list(self.filters.keys())`. -/
def FilterManager.list_filters (m : FilterManager) : List String :=
  m.filters.map Prod.fst

/-- `list(self.filters.values())` — the lock-protected snapshot taken once
per chunk inside `transform()` (lines 332-333): the filter objects in
insertion order. -/
def FilterManager.snapshot (m : FilterManager) : List ProcFun :=
  m.filters.map Prod.snd

/-- The loop `for filt in current_filters: filtered_data = filt.process_chunk(filtered_data)`
(lines 336-337): a left-to-right fold of the snapshot over the chunk. -/
def applyFilters (fs : List ProcFun) (c : Chunk) : Chunk :=
  fs.foldl (fun acc f => f acc) c

/-- One iteration of the `for raw_data in self.raw_stream` loop body
(lines 320-339): `None` is forwarded as `None`; with an empty filter dict
`(raw_data, raw_data)` is yielded; otherwise the snapshot is applied
sequentially and `(raw_data, filtered_data)` is yielded. -/
def transformStep (fs : List ProcFun) : Option Chunk → Option (Chunk × Chunk)
  | none => none
  | some raw =>
      if fs.isEmpty then some (raw, raw)
      else some (raw, applyFilters fs raw)

/-- Number of `process_chunk` invocations performed by one iteration of the
`transform()` loop body: none for the sentinel or for an empty dict, one per
snapshotted filter otherwise. -/
def stepFilterCalls (fs : List ProcFun) : Option Chunk → ℕ
  | none => 0
  | some _ => if fs.isEmpty then 0 else fs.length

/-- The generator object returned by calling `transform()`: Python allocates
it without executing any of the function body. -/
structure TransformGen where
  mgr : FilterManager

/-- A Python exception escaping a call. -/
inductive PyError
  | valueError (msg : String)
deriving DecidableEq

/-- Calling `FilterManager.transform()` (line 311): because `transform` is a
generator function (its body contains `yield`), the call itself runs none of
the body — it merely packages a generator; in particular the
`raise ValueError` at line 317 cannot fire here. -/
def FilterManager.transform (m : FilterManager) : Except PyError TransformGen :=
  .ok ⟨m⟩

/-- Outcome of iterating the generator returned by `transform()` to
exhaustion over the bound (finite prefix of the) stream. -/
inductive TransformResult
  | errNoSource (e : PyError)
  | ok (outs : List (Option (Chunk × Chunk)))

/-- Iterating the generator: the first `next()` executes the body, which
first checks `if self.raw_stream is None: raise ValueError(...)`
(lines 316-317) and then runs the loop, yielding one unit per input. -/
def TransformGen.run (g : TransformGen) : TransformResult :=
  match g.mgr.raw_stream with
  | none => .errNoSource (.valueError "Raw stream not set. Use add_raw_stream() to set it before transforming.")
  | some xs => .ok (xs.map (transformStep g.mgr.snapshot))

/-- `transform()` iterated against a trace in which the filter list may be
mutated concurrently between chunks: element `i` of the trace pairs the
snapshot current when chunk `i` is dequeued with that chunk.  Each chunk is
processed wholly against its own snapshot. -/
def transformTrace (tr : List (List ProcFun × Option Chunk)) :
    List (Option (Chunk × Chunk)) :=
  tr.map (fun p => transformStep p.1 p.2)

/-! ### Differential (`src/Filter.py` lines 194-202)

`np.diff(data, axis=0)`: output row `i` is `data[i+1] - data[i]`,
elementwise along the sample axis.  The class carries no instance state. -/

/-- `np.diff(_, axis=0)` on a channels-by-samples buffer. -/
def npDiffRows : Chunk → Chunk
  | r1 :: r2 :: rest => (List.zipWith (fun x y => x - y) r2 r1) :: npDiffRows (r2 :: rest)
  | _ => []

/-- `Differential.process_chunk(data)`: `np.array(data)` copies, then
`np.diff(data, axis=0)` is returned. -/
def Differential.process_chunk (data : Chunk) : Chunk :=
  npDiffRows data

/-! ### PCA / IncrementalPCA (`src/Filter.py` lines 135-192)

The sklearn decomposition objects are third-party code; their fit /
transform / inverse-transform maps are taken as arbitrary functions, so
every theorem below holds for any behaviour of sklearn.  What is embedded
concretely is the repository's own code: the transpose, the
channels-below-components guard, the zeroing of the first component column,
and the final transpose back. -/

/-- `components[:, 0] = 0`: the first entry of every row (the first
principal component of every sample) is overwritten with zero in place. -/
def zeroFirstCol (m : Chunk) : Chunk :=
  m.map (fun row =>
    match row with
    | [] => []
    | _ :: rest => 0 :: rest)

/-- `PCA.process_chunk(data)` (lines 148-158), with sklearn's
`fit_transform` and `inverse_transform` as parameters: transpose to
samples-by-channels, pass the chunk through untouched when
`data.shape[0] < self.n_components`, otherwise decompose, zero PC1 and
reconstruct. -/
def PCA.process_chunk (n_components : ℕ)
    (fit_transform inverse_transform : Chunk → Chunk) (data : Chunk) : Chunk :=
  let data_t := data.transpose
  if data.length < n_components then data
  else (inverse_transform (zeroFirstCol (fit_transform data_t))).transpose

/-- `IncrementalPCA.process_chunk(data)` (lines 175-192).  The running
sklearn model is an abstract state `M`; `pfit m d` is
`partial_fit` (returning `none` when sklearn raises `ValueError` on a
dimension change), `freshModel` is `skIncrementalPCA(n_components=...)`, and
`tr` / `inv` are `transform` / `inverse_transform` of the updated model.
A `ValueError` from the second `partial_fit` would propagate. -/
def IncrementalPCA.process_chunk {M : Type} (n_components : ℕ) (freshModel : M)
    (pfit : M → Chunk → Option M) (tr inv : M → Chunk → Chunk)
    (model : M) (data : Chunk) : Except PyError (M × Chunk) :=
  let data_t := data.transpose
  if data.length < n_components then .ok (model, data)
  else
    match pfit model data_t with
    | some m2 =>
        .ok (m2, (inv m2 (zeroFirstCol (tr m2 data_t))).transpose)
    | none =>
        match pfit freshModel data_t with
        | some m2 =>
            .ok (m2, (inv m2 (zeroFirstCol (tr m2 data_t))).transpose)
        | none => .error (.valueError "partial_fit")

/-! ### BandPass / Notch state (`src/Filter.py` lines 27-131)

The IIR cascade is a list of second-order sections.  `scipy.signal.butter`,
`iirnotch` and `tf2sos` are external designs; the state machinery below is
proved for every cascade they could return.  `sosfilt_zi` and `lfilter_zi`
are embedded from scipy's own algorithm, since the repository's invariant
(steady-state initial condition, replicated per channel) is built on them. -/

/-- One second-order section `[b0 b1 b2 a0 a1 a2]`. -/
structure SOSection where
  b0 : ℚ
  b1 : ℚ
  b2 : ℚ
  a0 : ℚ
  a1 : ℚ
  a2 : ℚ
deriving DecidableEq

/-- `scipy.signal.lfilter_zi(b, a)` for a second-order section: normalise by
`a0`, then solve `(I - A^T) zi = B` with `A` the companion matrix of `a` and
`B = b[1:] - a[1:] * b[0]` — the steady state of the step response. -/
def lfilter_zi (s : SOSection) : ℚ × ℚ :=
  let b0 := s.b0 / s.a0
  let b1 := s.b1 / s.a0
  let b2 := s.b2 / s.a0
  let a1 := s.a1 / s.a0
  let a2 := s.a2 / s.a0
  let c0 := b1 - a1 * b0
  let c1 := b2 - a2 * b0
  let det := 1 + a1 + a2
  ((c0 + c1) / det, ((1 + a1) * c1 - a2 * c0) / det)

/-- The per-section loop of `scipy.signal.sosfilt_zi`: each section's
`lfilter_zi` scaled by the cumulative DC gain of the preceding sections. -/
def sosfiltZiAux (scale : ℚ) : List SOSection → List (ℚ × ℚ)
  | [] => []
  | s :: rest =>
      let z := lfilter_zi s
      (scale * z.1, scale * z.2) ::
        sosfiltZiAux (scale * ((s.b0 + s.b1 + s.b2) / (s.a0 + s.a1 + s.a2))) rest

/-- `scipy.signal.sosfilt_zi(sos)`: shape `[n_sections, 2]`. -/
def sosfilt_zi (sos : List SOSection) : List (ℚ × ℚ) :=
  sosfiltZiAux 1 sos

/-- `np.repeat(zi_init[:, np.newaxis, :], num_channels, axis=1)`
(lines 55, 82, 110, 129): the per-section steady state replicated across
channels, giving shape `[n_sections, n_channels, 2]`. -/
def ziInit (sos : List SOSection) (num_channels : ℕ) : List (List (ℚ × ℚ)) :=
  (sosfilt_zi sos).map (fun z => List.replicate num_channels z)

/-- Shape predicate for the carried state array: `[nsec, nch, 2]` (the last
dimension is the pair). -/
def ZiShape (zi : List (List (ℚ × ℚ))) (nsec nch : ℕ) : Prop :=
  zi.length = nsec ∧ ∀ row ∈ zi, row.length = nch

/-- The mutable fields of a `BandPass` (or `Notch`) instance that the state
invariant speaks about: the cascade, the channel count fixed at
construction, and the initial and carried state arrays. -/
structure BandPass where
  sos : List SOSection
  num_channels : ℕ
  zi_init : List (List (ℚ × ℚ))
  zi : List (List (ℚ × ℚ))

/-- `BandPass.__init__` (lines 41-56) after `calc_filt_coeffs` has produced
the cascade `sos`: compute `sosfilt_zi`, replicate per channel, copy into
the carried state. -/
def BandPass.init (sos : List SOSection) (num_channels : ℕ) : BandPass :=
  let z := ziInit sos num_channels
  ⟨sos, num_channels, z, z⟩

/-- `BandPass.change_filt_coeffs` (lines 76-84) after `calc_filt_coeffs` has
produced the new cascade: recompute `zi_init` for the possibly different
section count with the instance's `num_channels`, then `reset_state`. -/
def BandPass.change_filt_coeffs (bp : BandPass) (newSos : List SOSection) : BandPass :=
  let z := ziInit newSos bp.num_channels
  ⟨newSos, bp.num_channels, z, z⟩

/-- `Notch.__init__` (lines 99-111): same state machinery as `BandPass`,
with the cascade produced by `tf2sos(iirnotch(...))`. -/
def Notch.init (sos : List SOSection) (num_channels : ℕ) : BandPass :=
  BandPass.init sos num_channels

/-- `Notch.change_notch_params` (lines 121-130): recompute the cascade from
the new frequency and quality factor, then recreate and reset the state. -/
def Notch.change_notch_params (n : BandPass) (newSos : List SOSection) : BandPass :=
  BandPass.change_filt_coeffs n newSos

/-- The all-zero state array of shape `[nsec, nch, 2]` — what a zero
initialisation would produce instead of the steady-state one. -/
def ziZero (nsec nch : ℕ) : List (List (ℚ × ℚ)) :=
  List.replicate nsec (List.replicate nch (0, 0))

/-! ### ThreadedGenerator (`src/DataSource.py` lines 138-164)

The bounded `queue.Queue` decouples the producer thread (`_run`) from the
polling consumer (`__next__`).  The queue contents are FIFO: the items the
producer has put and the consumer has not yet taken.  `_run` puts one item
per generator element and a final `StopIteration` object on normal
exhaustion; if the generator raises, the loop is abandoned and the
`StopIteration` marker is never enqueued. -/

/-- An item sitting in the bounded queue: a produced chunk or the
`StopIteration` end marker that `_run` enqueues on normal exhaustion. -/
inductive QItem
  | chunk (c : Chunk)
  | stopIter
deriving DecidableEq

/-- The consumer-visible queue state, front of the list first. -/
structure ThreadedGenerator where
  q : List QItem

/-- Outcome of one `__next__()` call. -/
inductive NextRes
  | item (c : Chunk)
  | noData
  | stopRaised
deriving DecidableEq

/-- `ThreadedGenerator.__next__` (lines 156-164): `get_nowait()` — on
`queue.Empty` return `None` at once; a dequeued `StopIteration` marker
re-raises `StopIteration`; otherwise the dequeued chunk is returned.  The
function is total: no branch waits. -/
def ThreadedGenerator.next : ThreadedGenerator → ThreadedGenerator × NextRes
  | ⟨[]⟩ => (⟨[]⟩, .noData)
  | ⟨.chunk c :: rest⟩ => (⟨rest⟩, .item c)
  | ⟨.stopIter :: rest⟩ => (⟨rest⟩, .stopRaised)

/-- The queue contents left by `_run` when the wrapped generator dies with
an exception after producing `cs`: the loop is abandoned, so no
`StopIteration` marker follows the chunks (lines 148-151). -/
def producerRunExc (cs : List Chunk) : List QItem :=
  cs.map QItem.chunk

/-- The queue contents left by `_run` on normal generator exhaustion:
the chunks followed by the `StopIteration` marker. -/
def producerRunNormal (cs : List Chunk) : List QItem :=
  cs.map QItem.chunk ++ [QItem.stopIter]

/-- The results of `n` successive consumer polls (no further production). -/
def pollResults (tg : ThreadedGenerator) : ℕ → List NextRes
  | 0 => []
  | n + 1 =>
      let s := tg.next
      s.2 :: pollResults s.1 n

/-! ### MockSignal (`src/DataSource.py` lines 41-70)

`get_data` builds `t = arange(num_samples)/sample_rate + current_time`,
sums `sin(2*pi*f*t) * 1000` over the configured frequencies, tiles the tone
over the channels, and adds `normal(0,3,...)*500` noise plus per-channel DC
offsets drawn uniformly at construction.  The two `np.random` draws are
explicit inputs here (`noise c i` and `dc c`); the tone uses `Real.sin`. -/

/-- The deterministic multi-tone value at sample index `i`:
`sum_f sin(2*pi*f*(i/sample_rate + current_time)) * 1000`. -/
noncomputable def mockTone (sample_rate : ℝ) (frequencies : List ℝ)
    (current_time : ℝ) (i : ℕ) : ℝ :=
  ((frequencies.map
      (fun f => Real.sin (2 * Real.pi * f * ((i : ℝ) / sample_rate + current_time)))).sum) * 1000

/-- One entry of the chunk returned by `MockSignal.get_data`: channel `c`,
sample `i` holds the tone plus `noise[c, i] * 500` plus `dc_offsets[c]`. -/
noncomputable def MockSignal.sample (sample_rate : ℝ) (frequencies : List ℝ)
    (current_time : ℝ) (noise : ℕ → ℕ → ℝ) (dc : ℕ → ℝ) (c i : ℕ) : ℝ :=
  mockTone sample_rate frequencies current_time i + noise c i * 500 + dc c

/-- `MockSignal.get_data(num_samples)` (lines 50-62) as a function of the
constructor parameters, the elapsed time `current_time`, and the two random
draws: the `[num_channels, num_samples]` chunk
`tile(val, (nch, 1)) + noise*500 + dc_offsets`. -/
noncomputable def MockSignal.get_data (sample_rate : ℝ) (frequencies : List ℝ)
    (num_channels : ℕ) (current_time : ℝ)
    (noise : ℕ → ℕ → ℝ) (dc : ℕ → ℝ) (num_samples : ℕ) : List (List ℝ) :=
  (List.range num_channels).map (fun c =>
    (List.range num_samples).map (fun i =>
      MockSignal.sample sample_rate frequencies current_time noise dc c i))

/-- The update `self.current_time += num_samples / self.sample_rate`
performed by each `get_data` call. -/
noncomputable def MockSignal.advance (current_time : ℝ) (num_samples : ℕ) (sample_rate : ℝ) : ℝ :=
  current_time + (num_samples : ℝ) / sample_rate

/-! ### A store model for the frame effect of `process_chunk`

Numpy arrays are heap objects; `transform()` hands the raw chunk object
itself (not a copy) to the first filter (line 329: `filtered_data = raw_data`).
Addresses index a growing store; `alloc` models every numpy call that
returns a fresh array (`np.array` copies, `np.diff`, `sosfilt`, sklearn's
`fit_transform` / `inverse_transform`), and `write` models the single
in-place statement in the filter code, `components[:, 0] = 0`. -/

/-- A store of allocated arrays: addresses below `len` are live. -/
structure Store where
  mem : ℕ → Option Chunk
  len : ℕ

/-- Dereference an address (a dead address reads as the empty array). -/
def Store.read (h : Store) (a : ℕ) : Chunk :=
  (h.mem a).getD []

/-- Allocate a fresh array, returning its address. -/
def Store.alloc (h : Store) (m : Chunk) : Store × ℕ :=
  (⟨fun b => if b = h.len then some m else h.mem b, h.len + 1⟩, h.len)

/-- Overwrite the array at an existing address (an in-place numpy write). -/
def Store.write (h : Store) (a : ℕ) (m : Chunk) : Store :=
  ⟨fun b => if b = a then some m else h.mem b, h.len⟩

/-- A filter's `process_chunk` at store level: it receives the address of
its input array and returns the (grown) store and its output's address. -/
abbrev HFilter := Store → ℕ → Store × ℕ

/-- `Differential.process_chunk` at store level: `np.array(data)` allocates
a copy, `np.diff` allocates the result. -/
def Differential.runH (h : Store) (din : ℕ) : Store × ℕ :=
  let p1 := h.alloc (h.read din)
  p1.1.alloc (npDiffRows (p1.1.read p1.2))

/-- `BandPass.process_chunk` (lines 69-73) at store level, for an arbitrary
`sosfilt` value map: `sosfilt` returns a fresh output array (and a fresh
state array, tracked separately by `BandPass`); the input is only read. -/
def BandPass.runH (sosfiltFun : Chunk → Chunk) (h : Store) (din : ℕ) : Store × ℕ :=
  h.alloc (sosfiltFun (h.read din))

/-- The allocation performed by `data_t = np.array(data).T`, common to every
decomposition filter: `np.array` copies and `.T` is a view of that fresh
copy, so one fresh array holding the transpose is allocated. -/
def dataTAlloc (h : Store) (din : ℕ) : Store × ℕ :=
  h.alloc ((h.read din).transpose)

/-- The decomposition path of `PCA.process_chunk`: `fit_transform`
allocates `components`, the statement `components[:, 0] = 0` writes that
fresh array in place, `inverse_transform` allocates, and `.T` of the result
is returned; `a_t` is the address of the already-allocated `data_t`. -/
def pcaDecompose (fit_transform inverse_transform : Chunk → Chunk)
    (h1 : Store) (a_t : ℕ) : Store × ℕ :=
  let pc := h1.alloc (fit_transform (h1.read a_t))
  let h3 := pc.1.write pc.2 (zeroFirstCol (pc.1.read pc.2))
  let pf := h3.alloc (inverse_transform (h3.read pc.2))
  pf.1.alloc ((pf.1.read pf.2).transpose)

/-- `PCA.process_chunk` (lines 148-158) at store level: `np.array(data).T`
allocates the transposed copy (before the guard, as in the source); on the
guard branch the input object itself is returned; otherwise the
decomposition path runs on the fresh `data_t`. -/
def PCA.runH (n_components : ℕ) (fit_transform inverse_transform : Chunk → Chunk)
    (h : Store) (din : ℕ) : Store × ℕ :=
  if ((dataTAlloc h din).1.read din).length < n_components then
    ((dataTAlloc h din).1, din)
  else
    pcaDecompose fit_transform inverse_transform
      (dataTAlloc h din).1 (dataTAlloc h din).2

/-- The statement `if components.shape[1] > 0: components[:, 0] = 0` of
`KPCA.process_chunk` (lines 234-235): the in-place zeroing of the first
column of the (freshly allocated) `components` at `a_c`, performed only
when it has at least one column, with the column count read off the first
row of the rectangular array. -/
def kpcaZeroStep (h2 : Store) (a_c : ℕ) : Store :=
  if 0 < ((h2.read a_c).headD []).length then
    h2.write a_c (zeroFirstCol (h2.read a_c))
  else h2

/-- The decomposition path of `KPCA.process_chunk` (lines 232-238):
`fit_transform` allocates `components`, the guarded in-place zeroing
targets that fresh array, `inverse_transform` allocates, and `.T` of the
result is returned. -/
def kpcaDecompose (fit_transform inverse_transform : Chunk → Chunk)
    (h1 : Store) (a_t : ℕ) : Store × ℕ :=
  let pc := h1.alloc (fit_transform (h1.read a_t))
  let pf := (kpcaZeroStep pc.1 pc.2).alloc
    (inverse_transform ((kpcaZeroStep pc.1 pc.2).read pc.2))
  pf.1.alloc ((pf.1.read pf.2).transpose)

/-- `KPCA.process_chunk` (lines 219-238) at store level: allocate `data_t`,
return the input object itself when `n_samples < n_components` or
`n_features < n_components` (`data_t.shape`, read off the fresh transpose),
or when every channel's variance is below `1e-12` — the float predicate
`np.all(np.var(data_t, axis=0) < 1e-12)` is the parameter `lowVariance`,
so the theorem covers both of its outcomes — else run the decomposition. -/
def KPCA.runH (n_components : ℕ) (fit_transform inverse_transform : Chunk → Chunk)
    (lowVariance : Chunk → Bool) (h : Store) (din : ℕ) : Store × ℕ :=
  if ((dataTAlloc h din).1.read (dataTAlloc h din).2).length < n_components ∨
      (((dataTAlloc h din).1.read (dataTAlloc h din).2).headD []).length < n_components then
    ((dataTAlloc h din).1, din)
  else if lowVariance ((dataTAlloc h din).1.read (dataTAlloc h din).2) then
    ((dataTAlloc h din).1, din)
  else
    kpcaDecompose fit_transform inverse_transform
      (dataTAlloc h din).1 (dataTAlloc h din).2

/-- `SPCA.process_chunk` (lines 263-274) at store level: same guard as PCA;
on the decomposition path `fit_transform` allocates `components`, the
in-place `components[:, 0] = 0` writes that fresh array, and the
reconstruction `np.dot(components, self.spca.components_) + self.spca.mean_`
allocates fresh arrays (modelled as one fresh allocation of the composite
value `reconstruct`), of which `.T` is returned — structurally the PCA
decomposition path with `reconstruct` in place of `inverse_transform`. -/
def SPCA.runH (n_components : ℕ) (fit_transform reconstruct : Chunk → Chunk)
    (h : Store) (din : ℕ) : Store × ℕ :=
  if ((dataTAlloc h din).1.read din).length < n_components then
    ((dataTAlloc h din).1, din)
  else
    pcaDecompose fit_transform reconstruct (dataTAlloc h din).1 (dataTAlloc h din).2

/-- Outcome of an `IncrementalPCA.process_chunk` call: a returned chunk
address, or a `ValueError` escaping the second `partial_fit`. -/
inductive IPCAOutcome
  | ok (s : Store) (aout : ℕ)
  | raised (s : Store)

/-- `IncrementalPCA.process_chunk` (lines 175-192) at store level: allocate
`data_t`; on the guard branch return the input object itself.  Otherwise
`partial_fit` updates only the sklearn model object — carried outside the
array store — and `none` models its `ValueError` on a dimension change, on
which the model is re-created and refit (a second `none` lets the exception
escape, before any further allocation).  `tr` and `inv` are the updated
model's `transform` / `inverse_transform`; the component zeroing and
reconstruction are the same store steps as PCA's. -/
def IncrementalPCA.runH {M : Type} (n_components : ℕ) (freshModel : M)
    (pfit : M → Chunk → Option M) (tr inv : M → Chunk → Chunk) (model : M)
    (h : Store) (din : ℕ) : IPCAOutcome :=
  if ((dataTAlloc h din).1.read din).length < n_components then
    .ok (dataTAlloc h din).1 din
  else
    match pfit model ((dataTAlloc h din).1.read (dataTAlloc h din).2) with
    | some m2 =>
        .ok (pcaDecompose (tr m2) (inv m2) (dataTAlloc h din).1 (dataTAlloc h din).2).1
          (pcaDecompose (tr m2) (inv m2) (dataTAlloc h din).1 (dataTAlloc h din).2).2
    | none =>
        match pfit freshModel ((dataTAlloc h din).1.read (dataTAlloc h din).2) with
        | some m2 =>
            .ok (pcaDecompose (tr m2) (inv m2) (dataTAlloc h din).1 (dataTAlloc h din).2).1
              (pcaDecompose (tr m2) (inv m2) (dataTAlloc h din).1 (dataTAlloc h din).2).2
        | none => .raised (dataTAlloc h din).1

/-- The pipeline loop of `transform()` at store level: fold the snapshot
over the address of the working array, starting from the raw chunk's own
address. -/
def pipelineRunH (fs : List HFilter) (h : Store) (araw : ℕ) : Store × ℕ :=
  fs.foldl (fun p f => f p.1 p.2) (h, araw)

/-- One non-sentinel iteration of `transform()` at store level: run the
pipeline, then yield the pair of the values of `raw_data` and
`filtered_data` as they stand at the `yield` (line 339). -/
def transformStepH (fs : List HFilter) (h : Store) (araw : ℕ) :
    Store × (Chunk × Chunk) :=
  let p := pipelineRunH fs h araw
  (p.1, (p.1.read araw, p.1.read p.2))

/-- A store-level filter neither disturbs any live array other than ones it
allocated itself, nor shrinks the store, and returns a live address: read
back after the call, every previously live address holds its old array. -/
def PreservesLive (f : HFilter) : Prop :=
  ∀ h a din, a < h.len → din < h.len →
    (f h din).1.read a = h.read a ∧ h.len ≤ (f h din).1.len ∧ (f h din).2 < (f h din).1.len

/-- A manager with no bound stream, exactly as `FilterManager()` leaves it. -/
def mgrNoSource : FilterManager := FilterManager.init

/-! ### Helper lemmas -/

/-- On a chunk, the loop body agrees with the fold even on the
`len(self.filters) == 0` shortcut branch. -/
theorem transformStep_some (fs : List ProcFun) (raw : Chunk) :
    transformStep fs (some raw) = some (raw, applyFilters fs raw) := by
  cases fs <;> simp [transformStep, applyFilters]

/-- With an empty snapshot the loop body is the identity pairing. -/
theorem transformStep_nil (x : Option Chunk) :
    transformStep [] x = x.map (fun raw => (raw, raw)) := by
  cases x <;> rfl

/-- Running the generator over a bound stream maps the loop body over it. -/
theorem run_of_bound (m : FilterManager) (xs : List (Option Chunk))
    (h : m.raw_stream = some xs) :
    TransformGen.run ⟨m⟩ = .ok (xs.map (transformStep m.snapshot)) := by
  simp [TransformGen.run, h]

/-! ### C1 -/

/-- C1: for every non-sentinel chunk yielded by the bound source,
`transform()` emits `(raw, result)` where `result` is the left-to-right fold
of the filters' `process_chunk` over the chunk — sequentially
(first conjunct), agreeing with the fold on both loop branches (second),
over the values of the filter dict in insertion order (third: a fresh key
appends at the end of the snapshot), once per input position (fourth), and
against the single snapshot current for that chunk even when the list is
mutated between chunks (fifth). -/
theorem C1_transform_is_ordered_fold :
    (∀ (f : ProcFun) (fs : List ProcFun) (c : Chunk),
        applyFilters (f :: fs) c = applyFilters fs (f c)) ∧
    (∀ (fs : List ProcFun) (raw : Chunk),
        transformStep fs (some raw) = some (raw, applyFilters fs raw)) ∧
    (∀ (m : FilterManager) (name : String) (f : ProcFun),
        m.filters.all (fun p => p.1 ≠ name) = true →
        (m.add_filter name f).snapshot = m.snapshot ++ [f]) ∧
    (∀ (m : FilterManager) (xs : List (Option Chunk)) (i : ℕ) (raw : Chunk),
        m.raw_stream = some xs → xs[i]? = some (some raw) →
        TransformGen.run ⟨m⟩ = .ok (xs.map (transformStep m.snapshot)) ∧
        (xs.map (transformStep m.snapshot))[i]? =
          some (some (raw, applyFilters m.snapshot raw))) ∧
    (∀ (tr : List (List ProcFun × Option Chunk)) (i : ℕ),
        (transformTrace tr)[i]? = (tr[i]?).map (fun p => transformStep p.1 p.2)) := by
  refine ⟨fun f fs c => rfl, transformStep_some, ?_, ?_, ?_⟩
  · intro m name f hfresh
    simp only [List.all_eq_true, decide_eq_true_eq] at hfresh
    have hany : m.filters.any (fun p => p.1 = name) = false := by
      simp only [List.any_eq_false, decide_eq_true_eq]
      intro p hp
      exact hfresh p hp
    simp [FilterManager.add_filter, FilterManager.snapshot, dictInsert, hany]
  · intro m xs i raw hsrc hi
    refine ⟨run_of_bound m xs hsrc, ?_⟩
    rw [List.getElem?_map, hi]
    simp [transformStep_some]
  · intro tr i
    simp [transformTrace, List.getElem?_map]

/-- C1 witness: a one-chunk stream through a one-filter pipeline. -/
theorem C1_transform_is_ordered_fold_witness :
    TransformGen.run ⟨⟨some [some [[3]]], [("f", fun c => [] :: c)]⟩⟩ =
      .ok ([some [[3]]].map
        (transformStep (FilterManager.snapshot ⟨some [some [[3]]], [("f", fun c => [] :: c)]⟩))) ∧
    ([some [[3]]].map
        (transformStep (FilterManager.snapshot ⟨some [some [[3]]], [("f", fun c => [] :: c)]⟩)))[0]? =
      some (some ([[3]],
        applyFilters (FilterManager.snapshot ⟨some [some [[3]]], [("f", fun c => [] :: c)]⟩) [[3]])) :=
  C1_transform_is_ordered_fold.2.2.2.1
    ⟨some [some [[3]]], [("f", fun c => [] :: c)]⟩ [some [[3]]] 0 [[3]] rfl rfl

/-! ### C2 -/

/-- C2: a `None` input is forwarded as the sentinel unit (in the position of
a pair) and the loop continues with the next input; no filter's
`process_chunk` is invoked for it — the step result is the sentinel for
every possible filter list, and the invocation count is zero. -/
theorem C2_sentinel_forwarded :
    (∀ fs : List ProcFun, transformStep fs none = none) ∧
    (∀ fs : List ProcFun, stepFilterCalls fs none = 0) ∧
    (∀ (m : FilterManager) (xs : List (Option Chunk)),
        m.raw_stream = some xs →
        TransformGen.run ⟨m⟩ = .ok (xs.map (transformStep m.snapshot)) ∧
        (xs.map (transformStep m.snapshot)).length = xs.length ∧
        ∀ i : ℕ, xs[i]? = some none →
          (xs.map (transformStep m.snapshot))[i]? = some none) := by
  refine ⟨fun fs => rfl, fun fs => rfl, ?_⟩
  intro m xs hsrc
  refine ⟨run_of_bound m xs hsrc, by simp, ?_⟩
  intro i hi
  rw [List.getElem?_map, hi]
  rfl

/-- C2 witness: a stream holding one sentinel and one chunk. -/
theorem C2_sentinel_forwarded_witness :
    TransformGen.run ⟨⟨some [none, some [[7]]], []⟩⟩ =
      .ok ([none, some [[7]]].map
        (transformStep (FilterManager.snapshot ⟨some [none, some [[7]]], []⟩))) ∧
    ([none, some [[7]]].map
        (transformStep (FilterManager.snapshot ⟨some [none, some [[7]]], []⟩))).length =
      [none, some [[7]]].length ∧
    ∀ i : ℕ, ([none, some [[7]]] : List (Option Chunk))[i]? = some none →
      ([none, some [[7]]].map
        (transformStep (FilterManager.snapshot ⟨some [none, some [[7]]], []⟩)))[i]? =
        some none :=
  (C2_sentinel_forwarded.2.2 ⟨some [none, some [[7]]], []⟩ [none, some [[7]]] rfl)

/-! ### C3 -/

/-- C3 counterexample: with no bound source, the call
`FilterManager.transform()` itself raises nothing — it returns a generator —
because `transform` is a generator function whose body (including
the `raise ValueError` at `Filter.py` line 317) only runs at the first
`next()`.  The configuration error therefore surfaces during iteration,
refuting "fails fast at the call itself, not during iteration". -/
theorem C3_counterexample :
    (∀ e : PyError, FilterManager.transform mgrNoSource ≠ Except.error e) ∧
    FilterManager.transform mgrNoSource = Except.ok ⟨mgrNoSource⟩ ∧
    TransformGen.run ⟨mgrNoSource⟩ = .errNoSource
      (.valueError "Raw stream not set. Use add_raw_stream() to set it before transforming.") := by
  refine ⟨fun e h => ?_, rfl, rfl⟩
  simp [FilterManager.transform] at h

/-- C3 (amended): calling `transform()` without a bound source returns a
generator without error; the `ValueError` configuration error is raised at
the first iteration of that generator, before any pair is emitted. -/
theorem C3_error_on_first_iteration (m : FilterManager) (h : m.raw_stream = none) :
    FilterManager.transform m = Except.ok ⟨m⟩ ∧
    TransformGen.run ⟨m⟩ = .errNoSource
      (.valueError "Raw stream not set. Use add_raw_stream() to set it before transforming.") := by
  exact ⟨rfl, by simp [TransformGen.run, h]⟩

/-- C3 witness: the freshly constructed manager. -/
theorem C3_error_on_first_iteration_witness :
    FilterManager.transform ⟨none, []⟩ = Except.ok ⟨⟨none, []⟩⟩ ∧
    TransformGen.run ⟨⟨none, []⟩⟩ = .errNoSource
      (.valueError "Raw stream not set. Use add_raw_stream() to set it before transforming.") :=
  C3_error_on_first_iteration ⟨none, []⟩ rfl

/-! ### C4 -/

/-- C4: removing `"all"` leaves `list_filters()` empty, and a manager whose
filter dict is empty — initially or after removing `"all"` — emits
`(raw, raw)` for every non-sentinel chunk and forwards sentinels: the empty
pipeline is the identity on the stream. -/
theorem C4_empty_pipeline_identity :
    (∀ m : FilterManager, (m.remove_filter "all").list_filters = []) ∧
    (∀ (m : FilterManager) (xs : List (Option Chunk)),
        m.filters = [] → m.raw_stream = some xs →
        TransformGen.run ⟨m⟩ = .ok (xs.map (fun x => x.map (fun raw => (raw, raw))))) ∧
    (∀ (m : FilterManager) (xs : List (Option Chunk)),
        m.raw_stream = some xs →
        TransformGen.run ⟨m.remove_filter "all"⟩ =
          .ok (xs.map (fun x => x.map (fun raw => (raw, raw))))) := by
  have hempty : ∀ (m : FilterManager) (xs : List (Option Chunk)),
      m.filters = [] → m.raw_stream = some xs →
      TransformGen.run ⟨m⟩ = .ok (xs.map (fun x => x.map (fun raw => (raw, raw)))) := by
    intro m xs hf hsrc
    have hsnap : m.snapshot = [] := by simp [FilterManager.snapshot, hf]
    rw [run_of_bound m xs hsrc, hsnap]
    exact congrArg TransformResult.ok
      (List.map_congr_left fun x _ => transformStep_nil x)
  refine ⟨?_, hempty, ?_⟩
  · intro m
    simp [FilterManager.remove_filter, FilterManager.list_filters]
  · intro m xs hsrc
    exact hempty (m.remove_filter "all") xs
      (by simp [FilterManager.remove_filter]) (by simpa [FilterManager.remove_filter])

/-- C4 witness: remove `"all"` from a two-filter manager carrying a stream
with one chunk and one sentinel. -/
theorem C4_empty_pipeline_identity_witness :
    TransformGen.run
      ⟨(FilterManager.remove_filter
          ⟨some [some [[2]], none], [("a", fun c => c ++ c), ("b", fun _ => [])]⟩ "all")⟩ =
      .ok ([some [[2]], none].map (fun x => x.map (fun raw => (raw, raw)))) :=
  C4_empty_pipeline_identity.2.2
    ⟨some [some [[2]], none], [("a", fun c => c ++ c), ("b", fun _ => [])]⟩
    [some [[2]], none] rfl

/-! ### C5 -/

/-- The scipy loop returns one `(z0, z1)` pair per section. -/
theorem sosfiltZiAux_length (sos : List SOSection) :
    ∀ scale : ℚ, (sosfiltZiAux scale sos).length = sos.length := by
  induction sos with
  | nil => intro scale; rfl
  | cons s rest ih => intro scale; simp [sosfiltZiAux, ih]

/-- The replicated state array has shape `[n_sections, n_channels, 2]`. -/
theorem ziInit_shape (sos : List SOSection) (nch : ℕ) :
    ZiShape (ziInit sos nch) sos.length nch := by
  constructor
  · simp [ziInit, sosfilt_zi, sosfiltZiAux_length]
  · intro row hrow
    simp only [ziInit, List.mem_map] at hrow
    obtain ⟨z, _, rfl⟩ := hrow
    simp

/-- C5: for BandPass and Notch the carried IIR state array always has shape
`[numSections, numChannels, 2]`; it is recreated by
`change_filt_coeffs` / `change_notch_params` (the only paths that change the
section count; the channel count is fixed at construction), and on every
creation it is set to scipy's steady-state initial condition
`sosfilt_zi` replicated per channel — which differs from the all-zero
state for concrete designs. -/
theorem C5_state_shape_and_steady_state :
    (∀ (sos : List SOSection) (nch : ℕ),
        ZiShape (BandPass.init sos nch).zi sos.length nch ∧
        (BandPass.init sos nch).zi = ziInit sos nch ∧
        (BandPass.init sos nch).zi_init = ziInit sos nch) ∧
    (∀ (bp : BandPass) (newSos : List SOSection),
        ZiShape (bp.change_filt_coeffs newSos).zi newSos.length bp.num_channels ∧
        (bp.change_filt_coeffs newSos).zi = ziInit newSos bp.num_channels) ∧
    (∀ (n : BandPass) (newSos : List SOSection),
        ZiShape (Notch.change_notch_params n newSos).zi newSos.length n.num_channels ∧
        (Notch.change_notch_params n newSos).zi = ziInit newSos n.num_channels) ∧
    (∃ (sos : List SOSection) (nch : ℕ), ziInit sos nch ≠ ziZero sos.length nch) := by
  refine ⟨?_, ?_, ?_, ?_⟩
  · intro sos nch
    exact ⟨ziInit_shape sos nch, rfl, rfl⟩
  · intro bp newSos
    exact ⟨ziInit_shape newSos bp.num_channels, rfl⟩
  · intro n newSos
    exact ⟨ziInit_shape newSos n.num_channels, rfl⟩
  · refine ⟨[⟨1, 2, 1, 1, 1/2, 1/4⟩], 1, ?_⟩
    simp only [ziInit, sosfilt_zi, sosfiltZiAux, lfilter_zi, ziZero, List.length_cons,
      List.length_nil, List.replicate, List.map_cons, List.map_nil]
    norm_num

/-- C5 witness: the invariant evaluated on a concrete one-section cascade
with one channel. -/
theorem C5_state_shape_and_steady_state_witness :
    ZiShape (BandPass.init [⟨1, 2, 1, 1, 1/2, 1/4⟩] 1).zi 1 1 ∧
    (BandPass.init [⟨1, 2, 1, 1, 1/2, 1/4⟩] 1).zi = ziInit [⟨1, 2, 1, 1, 1/2, 1/4⟩] 1 ∧
    (BandPass.init [⟨1, 2, 1, 1, 1/2, 1/4⟩] 1).zi_init = ziInit [⟨1, 2, 1, 1, 1/2, 1/4⟩] 1 :=
  C5_state_shape_and_steady_state.1 [⟨1, 2, 1, 1, 1/2, 1/4⟩] 1

/-! ### C6 -/

/-- Polling an empty queue forever yields the sentinel forever. -/
theorem pollResults_empty : ∀ n : ℕ,
    pollResults ⟨[]⟩ n = List.replicate n NextRes.noData := by
  intro n
  induction n with
  | zero => rfl
  | succ n ih => simp [pollResults, ThreadedGenerator.next, ih, List.replicate_succ]

/-- After the producer dies from an exception having produced `cs`, `n`
consumer polls return exactly the produced chunks in order followed by the
sentinel: nothing blocks and nothing is raised. -/
theorem pollResults_exc (cs : List Chunk) : ∀ n : ℕ,
    pollResults ⟨producerRunExc cs⟩ n =
      (cs.take n).map NextRes.item ++ List.replicate (n - cs.length) NextRes.noData := by
  induction cs with
  | nil =>
    intro n
    simp [producerRunExc, pollResults_empty]
  | cons c rest ih =>
    intro n
    cases n with
    | zero => simp [pollResults]
    | succ n =>
      simp [producerRunExc, pollResults, ThreadedGenerator.next] at ih ⊢
      simpa [Nat.succ_sub_succ] using ih n

/-- C6: `__next__` never blocks (it is a total step function) and returns
the `None` sentinel immediately on an empty queue; when the producer has
died from an exception the `StopIteration` marker was never enqueued, so
every subsequent poll returns a remaining chunk or the sentinel and the
`StopIteration` outcome never occurs. -/
theorem C6_trypop_never_blocks :
    (∀ tg : ThreadedGenerator, tg.q = [] →
        ThreadedGenerator.next tg = (tg, NextRes.noData)) ∧
    (∀ (cs : List Chunk) (n : ℕ),
        pollResults ⟨producerRunExc cs⟩ n =
          (cs.take n).map NextRes.item ++ List.replicate (n - cs.length) NextRes.noData) ∧
    (∀ (cs : List Chunk) (n : ℕ),
        NextRes.stopRaised ∉ pollResults ⟨producerRunExc cs⟩ n) := by
  refine ⟨?_, pollResults_exc, ?_⟩
  · intro tg h
    obtain ⟨q⟩ := tg
    subst h
    rfl
  · intro cs n
    rw [pollResults_exc]
    intro h
    rcases List.mem_append.1 h with h1 | h2
    · rcases List.mem_map.1 h1 with ⟨c, _, hc⟩
      exact NextRes.noConfusion hc
    · have := List.eq_of_mem_replicate h2
      exact NextRes.noConfusion this

/-- C6 witness: an empty queue and a dead producer that yielded two chunks. -/
theorem C6_trypop_never_blocks_witness :
    ThreadedGenerator.next ⟨[]⟩ = (⟨[]⟩, NextRes.noData) ∧
    pollResults ⟨producerRunExc [[[1]], [[2]]]⟩ 4 =
      ([[[1]], [[2]]].take 4).map NextRes.item ++
        List.replicate (4 - [[[1]], [[2]]].length) NextRes.noData ∧
    NextRes.stopRaised ∉ pollResults ⟨producerRunExc [[[1]], [[2]]]⟩ 4 :=
  ⟨C6_trypop_never_blocks.1 ⟨[]⟩ rfl,
   C6_trypop_never_blocks.2.1 [[[1]], [[2]]] 4,
   C6_trypop_never_blocks.2.2 [[[1]], [[2]]] 4⟩

/-! ### C7 -/

/-- `np.diff` along the channel axis drops exactly one row. -/
theorem npDiffRows_length : ∀ data : Chunk, (npDiffRows data).length = data.length - 1
  | [] => rfl
  | [_] => rfl
  | _ :: r2 :: rest => by
      have := npDiffRows_length (r2 :: rest)
      simp [npDiffRows] at this ⊢
      omega

/-- `np.diff` keeps the sample count of a rectangular input. -/
theorem npDiffRows_row_length {N : ℕ} :
    ∀ data : Chunk, (∀ row ∈ data, row.length = N) →
      ∀ row ∈ npDiffRows data, row.length = N
  | [], _, row, h => by simp [npDiffRows] at h
  | [_], _, row, h => by simp [npDiffRows] at h
  | r1 :: r2 :: rest, hN, row, h => by
      rcases List.mem_cons.1 h with rfl | h2
      · rw [List.length_zipWith]
        have h1 := hN r1 (by simp)
        have h2 := hN r2 (by simp)
        omega
      · exact npDiffRows_row_length (r2 :: rest)
          (fun row hr => hN row (List.mem_cons_of_mem r1 hr)) row h2

/-- Row `i` of `np.diff(data, axis=0)` is `data[i+1] - data[i]` elementwise. -/
theorem npDiffRows_getD : ∀ (data : Chunk) (i : ℕ), i + 1 < data.length →
    (npDiffRows data).getD i [] =
      List.zipWith (fun x y => x - y) (data.getD (i + 1) []) (data.getD i [])
  | [], i, h => by simp at h
  | [_], i, h => by simp at h
  | r1 :: r2 :: rest, 0, _ => by simp [npDiffRows]
  | r1 :: r2 :: rest, i + 1, h => by
      have := npDiffRows_getD (r2 :: rest) i (by simpa using h)
      simpa [npDiffRows] using this

/-- Entry `j` of an elementwise row subtraction. -/
theorem zipWith_sub_getD : ∀ (a b : List ℚ) (j : ℕ), j < a.length → j < b.length →
    (List.zipWith (fun x y => x - y) a b).getD j 0 = a.getD j 0 - b.getD j 0
  | [], _, j, h1, _ => by simp at h1
  | _ :: _, [], j, _, h2 => by simp at h2
  | x :: a, y :: b, 0, _, _ => by simp
  | x :: a, y :: b, j + 1, h1, h2 => by
      simpa using zipWith_sub_getD a b j (by simpa using h1) (by simpa using h2)

/-- An in-bounds `getD` reads an element of the list. -/
theorem getD_mem_of_lt {α : Type} (l : List α) (d : α) (i : ℕ) (h : i < l.length) :
    l.getD i d ∈ l := by
  rw [List.getD_eq_getElem l d h]
  exact List.getElem_mem h

/-- C7: for a rectangular input of shape `[C, N]` with `C ≥ 1`,
`Differential.process_chunk` returns a `[C-1, N]` chunk whose row `i` is
input row `i+1` minus input row `i`; the filter is stateless — its
embedding is a plain function of the current chunk, matching the class,
which holds no instance state. -/
theorem C7_differential_rows (data : Chunk) (N : ℕ)
    (hC : 1 ≤ data.length) (hN : ∀ row ∈ data, row.length = N) :
    (Differential.process_chunk data).length = data.length - 1 ∧
    (∀ row ∈ Differential.process_chunk data, row.length = N) ∧
    (∀ i j : ℕ, i + 1 < data.length → j < N →
      ((Differential.process_chunk data).getD i []).getD j 0 =
        (data.getD (i + 1) []).getD j 0 - (data.getD i []).getD j 0) := by
  refine ⟨npDiffRows_length data, npDiffRows_row_length data hN, ?_⟩
  intro i j hi hj
  have l1 : (data.getD (i + 1) []).length = N :=
    hN _ (getD_mem_of_lt data [] (i + 1) hi)
  have l2 : (data.getD i []).length = N :=
    hN _ (getD_mem_of_lt data [] i (by omega))
  simp only [Differential.process_chunk]
  rw [npDiffRows_getD data i hi]
  exact zipWith_sub_getD _ _ j (by omega) (by omega)

/-- C7 witness: the spec's own example shape, a `[4, 2]` input. -/
theorem C7_differential_rows_witness :
    (Differential.process_chunk [[0, 1], [2, 4], [7, 2], [3, 3]]).length =
      [[0, 1], [2, 4], [7, 2], [3, 3]].length - 1 ∧
    (∀ row ∈ Differential.process_chunk [[0, 1], [2, 4], [7, 2], [3, 3]],
      row.length = 2) ∧
    (∀ i j : ℕ, i + 1 < [[0, 1], [2, 4], [7, 2], [3, 3]].length → j < 2 →
      ((Differential.process_chunk [[0, 1], [2, 4], [7, 2], [3, 3]]).getD i []).getD j 0 =
        (([[0, 1], [2, 4], [7, 2], [3, 3]] : Chunk).getD (i + 1) []).getD j 0 -
          (([[0, 1], [2, 4], [7, 2], [3, 3]] : Chunk).getD i []).getD j 0) :=
  C7_differential_rows [[0, 1], [2, 4], [7, 2], [3, 3]] 2 (by simp)
    (by intro row h; simp at h; rcases h with rfl | rfl | rfl | rfl <;> rfl)

/-! ### C8 -/

/-- C8: whenever the channel count is strictly below `n_components`, both
`PCA.process_chunk` and `IncrementalPCA.process_chunk` return the input
chunk unchanged (and the running IPCA model is untouched), for every
possible behaviour of the sklearn decomposition — no decomposition is
attempted. -/
theorem C8_pca_degrade :
    (∀ (n_components : ℕ) (ft it : Chunk → Chunk) (data : Chunk),
        data.length < n_components →
        PCA.process_chunk n_components ft it data = data) ∧
    (∀ (M : Type) (n_components : ℕ) (freshModel : M)
        (pfit : M → Chunk → Option M) (tr inv : M → Chunk → Chunk)
        (model : M) (data : Chunk),
        data.length < n_components →
        IncrementalPCA.process_chunk n_components freshModel pfit tr inv model data =
          .ok (model, data)) := by
  constructor
  · intro n ft it data h
    simp [PCA.process_chunk, h]
  · intro M n fresh pfit tr inv model data h
    simp [IncrementalPCA.process_chunk, h]

/-- C8 witness: a single-channel chunk against two requested components. -/
theorem C8_pca_degrade_witness :
    PCA.process_chunk 2 id id [[1]] = [[1]] ∧
    IncrementalPCA.process_chunk 2 () (fun _ _ => some ()) (fun _ c => c) (fun _ c => c)
        () [[1]] = .ok ((), [[1]]) :=
  ⟨C8_pca_degrade.1 2 id id [[1]] (by decide),
   C8_pca_degrade.2 Unit 2 () (fun _ _ => some ()) (fun _ c => c) (fun _ c => c)
     () [[1]] (by decide)⟩

/-! ### C9 -/

/-- Indexing a map over `List.range`. -/
theorem getD_map_range {α : Type} (f : ℕ → α) (n k : ℕ) (d : α) (hk : k < n) :
    ((List.range n).map f).getD k d = f k := by
  rw [List.getD_eq_getElem?_getD, List.getElem?_map, List.getElem?_range hk,
    Option.map_some', Option.getD_some]

/-- C9 counterexample: two `MockSignal`s constructed with identical
parameters (the constructor defaults except one channel) whose random
draws differ — here the per-channel DC offsets, drawn by
`np.random.uniform` in `__init__` — produce different first chunks, so the
stream is not a function of the constructor parameters and sample index
alone. -/
theorem C9_counterexample :
    MockSignal.get_data 1000 [10, 50, 2, 5, 100, 75] 1 0 (fun _ _ => 0) (fun _ => 0) 1 ≠
      MockSignal.get_data 1000 [10, 50, 2, 5, 100, 75] 1 0 (fun _ _ => 0) (fun _ => 1) 1 := by
  intro h
  have h0 := congrArg (fun m : List (List ℝ) => (m.getD 0 []).getD 0 0) h
  simp only [MockSignal.get_data, MockSignal.sample, List.range_succ, List.range_zero,
    List.nil_append, List.map_cons, List.map_nil, List.getD_cons_zero] at h0
  linarith

/-- C9 (amended): each entry of a `MockSignal` chunk is the deterministic
multi-tone value — a function of sample rate, configured frequencies and
elapsed sample index only — plus `500` times the per-call Gaussian noise
draw and the per-channel DC offset drawn at construction; with the same
random draws, two runs with the same parameters produce identical chunks. -/
theorem C9_tone_plus_randomness (sr : ℝ) (freqs : List ℝ) (nch : ℕ) (t0 : ℝ)
    (noise : ℕ → ℕ → ℝ) (dc : ℕ → ℝ) (ns : ℕ) (c i : ℕ)
    (hc : c < nch) (hi : i < ns) :
    ((MockSignal.get_data sr freqs nch t0 noise dc ns).getD c []).getD i 0 =
      mockTone sr freqs t0 i + noise c i * 500 + dc c := by
  simp only [MockSignal.get_data]
  rw [getD_map_range (fun c => (List.range ns).map
        (fun i => MockSignal.sample sr freqs t0 noise dc c i)) nch c [] hc,
    getD_map_range (fun i => MockSignal.sample sr freqs t0 noise dc c i) ns i 0 hi]
  rfl

/-- C9 witness: channel 0, sample 0 of a one-channel, one-sample chunk with
concrete draws. -/
theorem C9_tone_plus_randomness_witness :
    ((MockSignal.get_data 1000 [10] 1 0 (fun _ _ => 2) (fun _ => 3) 1).getD 0 []).getD 0 0 =
      mockTone 1000 [10] 0 0 + 2 * 500 + 3 :=
  C9_tone_plus_randomness 1000 [10] 1 0 (fun _ _ => 2) (fun _ => 3) 1 0 0
    (by decide) (by decide)

/-! ### C10 -/

/-- Allocation leaves every previously live address unchanged. -/
theorem Store.read_alloc_of_lt (h : Store) (m : Chunk) (a : ℕ) (ha : a < h.len) :
    (h.alloc m).1.read a = h.read a := by
  simp [Store.read, Store.alloc, Nat.ne_of_lt ha]

/-- An in-place write touches only its own address. -/
theorem Store.read_write_of_ne (h : Store) (b : ℕ) (m : Chunk) (a : ℕ) (hne : a ≠ b) :
    (h.write b m).read a = h.read a := by
  simp [Store.read, Store.write, hne]

/-- `Differential.process_chunk` only allocates: every live array survives. -/
theorem differential_runH_preserves : PreservesLive Differential.runH := by
  intro h a din ha hdin
  refine ⟨?_, ?_, ?_⟩
  · show ((h.alloc (h.read din)).1.alloc _).1.read a = h.read a
    rw [Store.read_alloc_of_lt _ _ a (by simp [Store.alloc]; omega),
      Store.read_alloc_of_lt _ _ a ha]
  · simp [Differential.runH, Store.alloc]
    omega
  · simp [Differential.runH, Store.alloc]

/-- `BandPass.process_chunk` only reads its input and allocates `sosfilt`'s
fresh output, whatever values `sosfilt` computes. -/
theorem bandpass_runH_preserves (sosfiltFun : Chunk → Chunk) :
    PreservesLive (BandPass.runH sosfiltFun) := by
  intro h a din ha hdin
  exact ⟨Store.read_alloc_of_lt h _ a ha, by simp [BandPass.runH, Store.alloc],
    by simp [BandPass.runH, Store.alloc]⟩

/-- Store extension: no previously live address changed, length not shrunk. -/
def StoreExt (h h2 : Store) : Prop :=
  h.len ≤ h2.len ∧ ∀ a, a < h.len → h2.read a = h.read a

/-- Extension composes. -/
theorem storeExt_trans {h1 h2 h3 : Store} (e12 : StoreExt h1 h2) (e23 : StoreExt h2 h3) :
    StoreExt h1 h3 :=
  ⟨le_trans e12.1 e23.1,
   fun a ha => (e23.2 a (lt_of_lt_of_le ha e12.1)).trans (e12.2 a ha)⟩

/-- An allocation is an extension. -/
theorem storeExt_alloc (h : Store) (m : Chunk) : StoreExt h (h.alloc m).1 :=
  ⟨Nat.le_succ h.len, fun a ha => Store.read_alloc_of_lt h m a ha⟩

/-- A write at or above the original length keeps the extension. -/
theorem storeExt_write_top {h h2 : Store} (e : StoreExt h h2) (b : ℕ)
    (hb : h.len ≤ b) (m : Chunk) : StoreExt h (h2.write b m) :=
  ⟨e.1, fun a ha => by
    rw [Store.read_write_of_ne h2 b m a (by omega)]
    exact e.2 a ha⟩

/-- The decomposition path only allocates and writes fresh addresses, and
returns a live address. -/
theorem pcaDecompose_ext (ft it : Chunk → Chunk) (h1 : Store) (a_t : ℕ) :
    StoreExt h1 (pcaDecompose ft it h1 a_t).1 ∧
    (pcaDecompose ft it h1 a_t).2 < (pcaDecompose ft it h1 a_t).1.len := by
  constructor
  · exact storeExt_trans
      (storeExt_trans
        (storeExt_write_top (storeExt_alloc h1 (ft (h1.read a_t))) _ (le_refl h1.len) _)
        (storeExt_alloc _ _))
      (storeExt_alloc _ _)
  · exact Nat.lt_succ_self _

/-- `PCA.process_chunk` allocates its working arrays and performs its one
in-place write (`components[:, 0] = 0`) on the freshly allocated
`components`, never on the input, whatever sklearn computes. -/
theorem pca_runH_preserves (n_components : ℕ) (ft it : Chunk → Chunk) :
    PreservesLive (PCA.runH n_components ft it) := by
  intro h a din ha hdin
  have hpt : StoreExt h (dataTAlloc h din).1 := storeExt_alloc h ((h.read din).transpose)
  by_cases hg : ((dataTAlloc h din).1.read din).length < n_components
  · have hcase : PCA.runH n_components ft it h din = ((dataTAlloc h din).1, din) := by
      unfold PCA.runH
      rw [if_pos hg]
    rw [hcase]
    exact ⟨hpt.2 a ha, hpt.1, lt_of_lt_of_le hdin hpt.1⟩
  · have hcase : PCA.runH n_components ft it h din =
        pcaDecompose ft it (dataTAlloc h din).1 (dataTAlloc h din).2 := by
      unfold PCA.runH
      rw [if_neg hg]
    rw [hcase]
    obtain ⟨hx, hout⟩ := pcaDecompose_ext ft it (dataTAlloc h din).1 (dataTAlloc h din).2
    have hcomp := storeExt_trans hpt hx
    exact ⟨hcomp.2 a ha, hcomp.1, hout⟩

/-- The guarded zeroing keeps any extension: it either writes the fresh
`components` address or does nothing. -/
theorem storeExt_kpcaZeroStep {h h2 : Store} (e : StoreExt h h2) (b : ℕ)
    (hb : h.len ≤ b) : StoreExt h (kpcaZeroStep h2 b) := by
  unfold kpcaZeroStep
  split
  · exact storeExt_write_top e b hb _
  · exact e

/-- KPCA's decomposition path only allocates and conditionally writes the
fresh `components`, and returns a live address. -/
theorem kpcaDecompose_ext (ft it : Chunk → Chunk) (h1 : Store) (a_t : ℕ) :
    StoreExt h1 (kpcaDecompose ft it h1 a_t).1 ∧
    (kpcaDecompose ft it h1 a_t).2 < (kpcaDecompose ft it h1 a_t).1.len := by
  constructor
  · exact storeExt_trans
      (storeExt_trans
        (storeExt_kpcaZeroStep (storeExt_alloc h1 (ft (h1.read a_t))) _ (le_refl h1.len))
        (storeExt_alloc _ _))
      (storeExt_alloc _ _)
  · exact Nat.lt_succ_self _

/-- `KPCA.process_chunk` never touches the input: both guards return the
input object itself, and the decomposition path writes only the fresh
`components`, for every sklearn behaviour and variance-predicate outcome. -/
theorem kpca_runH_preserves (n_components : ℕ) (ft it : Chunk → Chunk)
    (lowVariance : Chunk → Bool) :
    PreservesLive (KPCA.runH n_components ft it lowVariance) := by
  intro h a din ha hdin
  have hpt : StoreExt h (dataTAlloc h din).1 := storeExt_alloc h ((h.read din).transpose)
  have hguard : ((dataTAlloc h din).1, din).1.read a = h.read a ∧
      h.len ≤ ((dataTAlloc h din).1, din).1.len ∧
      ((dataTAlloc h din).1, din).2 < ((dataTAlloc h din).1, din).1.len :=
    ⟨hpt.2 a ha, hpt.1, lt_of_lt_of_le hdin hpt.1⟩
  unfold KPCA.runH
  split
  · exact hguard
  · split
    · exact hguard
    · obtain ⟨hx, hout⟩ := kpcaDecompose_ext ft it (dataTAlloc h din).1 (dataTAlloc h din).2
      have hcomp := storeExt_trans hpt hx
      exact ⟨hcomp.2 a ha, hcomp.1, hout⟩

/-- `SPCA.process_chunk` never touches the input: the guard returns the
input object itself and the decomposition path writes only the fresh
`components`, for every sklearn behaviour. -/
theorem spca_runH_preserves (n_components : ℕ) (ft recon : Chunk → Chunk) :
    PreservesLive (SPCA.runH n_components ft recon) := by
  intro h a din ha hdin
  have hpt : StoreExt h (dataTAlloc h din).1 := storeExt_alloc h ((h.read din).transpose)
  unfold SPCA.runH
  split
  · exact ⟨hpt.2 a ha, hpt.1, lt_of_lt_of_le hdin hpt.1⟩
  · obtain ⟨hx, hout⟩ := pcaDecompose_ext ft recon (dataTAlloc h din).1 (dataTAlloc h din).2
    have hcomp := storeExt_trans hpt hx
    exact ⟨hcomp.2 a ha, hcomp.1, hout⟩

/-- Every successful `IncrementalPCA.process_chunk` call has exactly the
store effect of a `PCA.process_chunk` call whose maps are the fitted
model's `transform` / `inverse_transform`: the guard is identical, and
each `partial_fit` outcome only selects which maps run the shared
zero-and-reconstruct path. -/
theorem ipca_ok_projects {M : Type} (n_components : ℕ) (freshModel : M)
    (pfit : M → Chunk → Option M) (tr inv : M → Chunk → Chunk) (model : M)
    (h : Store) (din : ℕ) (s : Store) (aout : ℕ)
    (hs : IncrementalPCA.runH n_components freshModel pfit tr inv model h din =
      .ok s aout) :
    ∃ m2 : M, (s, aout) = PCA.runH n_components (tr m2) (inv m2) h din := by
  unfold IncrementalPCA.runH at hs
  by_cases hg : ((dataTAlloc h din).1.read din).length < n_components
  · rw [if_pos hg] at hs
    obtain ⟨h1, h2⟩ := IPCAOutcome.ok.inj hs
    refine ⟨model, ?_⟩
    unfold PCA.runH
    rw [if_pos hg, ← h1, ← h2]
  · rw [if_neg hg] at hs
    cases hm : pfit model ((dataTAlloc h din).1.read (dataTAlloc h din).2) with
    | some m2 =>
        rw [hm] at hs
        obtain ⟨h1, h2⟩ := IPCAOutcome.ok.inj hs
        refine ⟨m2, ?_⟩
        unfold PCA.runH
        rw [if_neg hg, ← h1, ← h2]
    | none =>
        rw [hm] at hs
        cases hm2 : pfit freshModel ((dataTAlloc h din).1.read (dataTAlloc h din).2) with
        | some m2 =>
            rw [hm2] at hs
            obtain ⟨h1, h2⟩ := IPCAOutcome.ok.inj hs
            refine ⟨m2, ?_⟩
            unfold PCA.runH
            rw [if_neg hg, ← h1, ← h2]
        | none =>
            rw [hm2] at hs
            exact nomatch hs

/-- `IncrementalPCA.process_chunk` never touches the input: a successful
call has PCA's store effect, and when the `ValueError` escapes it does so
right after the `data_t` allocation, with every live address intact. -/
theorem ipca_runH_preserves {M : Type} (n_components : ℕ) (freshModel : M)
    (pfit : M → Chunk → Option M) (tr inv : M → Chunk → Chunk) (model : M)
    (h : Store) (a din : ℕ) (ha : a < h.len) (hdin : din < h.len) :
    (∀ (s : Store) (aout : ℕ),
        IncrementalPCA.runH n_components freshModel pfit tr inv model h din = .ok s aout →
        s.read a = h.read a ∧ h.len ≤ s.len ∧ aout < s.len) ∧
    (∀ s : Store,
        IncrementalPCA.runH n_components freshModel pfit tr inv model h din = .raised s →
        s.read a = h.read a ∧ h.len ≤ s.len) := by
  have hpt : StoreExt h (dataTAlloc h din).1 := storeExt_alloc h ((h.read din).transpose)
  constructor
  · intro s aout hs
    obtain ⟨m2, hproj⟩ :=
      ipca_ok_projects n_components freshModel pfit tr inv model h din s aout hs
    have hp := pca_runH_preserves n_components (tr m2) (inv m2) h a din ha hdin
    have hs1 : s = (PCA.runH n_components (tr m2) (inv m2) h din).1 :=
      congrArg Prod.fst hproj
    have hs2 : aout = (PCA.runH n_components (tr m2) (inv m2) h din).2 :=
      congrArg Prod.snd hproj
    rw [hs1, hs2]
    exact hp
  · intro s hs
    unfold IncrementalPCA.runH at hs
    by_cases hg : ((dataTAlloc h din).1.read din).length < n_components
    · rw [if_pos hg] at hs
      exact nomatch hs
    · rw [if_neg hg] at hs
      cases hm : pfit model ((dataTAlloc h din).1.read (dataTAlloc h din).2) with
      | some m2 =>
          rw [hm] at hs
          exact nomatch hs
      | none =>
          rw [hm] at hs
          cases hm2 : pfit freshModel ((dataTAlloc h din).1.read (dataTAlloc h din).2) with
          | some m2 =>
              rw [hm2] at hs
              exact nomatch hs
          | none =>
              rw [hm2] at hs
              have h1 := IPCAOutcome.raised.inj hs
              rw [← h1]
              exact ⟨hpt.2 a ha, hpt.1⟩

/-- Folding preserving filters over the store keeps every previously live
address intact, never shrinks the store, and ends at a live address. -/
theorem pipelineRunH_preserves : ∀ (fs : List HFilter),
    (∀ f ∈ fs, PreservesLive f) →
    ∀ (h : Store) (araw a : ℕ), a < h.len → araw < h.len →
      (pipelineRunH fs h araw).1.read a = h.read a ∧
      h.len ≤ (pipelineRunH fs h araw).1.len ∧
      (pipelineRunH fs h araw).2 < (pipelineRunH fs h araw).1.len
  | [], _, h, araw, a, ha, haraw => ⟨rfl, le_refl _, haraw⟩
  | f :: fs, hall, h, araw, a, ha, haraw => by
      obtain ⟨hr, hl, ho⟩ := hall f (by simp) h a araw ha haraw
      obtain ⟨ihr, ihl, iho⟩ :=
        pipelineRunH_preserves fs (fun g hg => hall g (List.mem_cons_of_mem f hg))
          (f h araw).1 (f h araw).2 a (by omega) ho
      refine ⟨?_, ?_, ?_⟩
      · show (pipelineRunH fs (f h araw).1 (f h araw).2).1.read a = h.read a
        rw [ihr, hr]
      · exact le_trans hl ihl
      · exact iho

/-- C10: no filter variant's `process_chunk` mutates its input array —
`Differential`, `BandPass` (covering `Notch`; for every possible
`sosfilt`), `PCA`, `KPCA` and `SPCA` (for every possible sklearn
decomposition) preserve every previously live store address, and
`IncrementalPCA` does too on both its outcomes, every successful call
moreover having exactly the store effect of a `PCA` call with its fitted
model's maps — so although `transform()` feeds the raw chunk object itself
into the first filter, the `raw` element of each emitted `(raw, filtered)`
pair still holds the original chunk. -/
theorem C10_no_input_mutation :
    PreservesLive Differential.runH ∧
    (∀ sosfiltFun : Chunk → Chunk, PreservesLive (BandPass.runH sosfiltFun)) ∧
    (∀ (n_components : ℕ) (ft it : Chunk → Chunk),
        PreservesLive (PCA.runH n_components ft it)) ∧
    (∀ (n_components : ℕ) (ft it : Chunk → Chunk) (lowVariance : Chunk → Bool),
        PreservesLive (KPCA.runH n_components ft it lowVariance)) ∧
    (∀ (n_components : ℕ) (ft recon : Chunk → Chunk),
        PreservesLive (SPCA.runH n_components ft recon)) ∧
    (∀ (M : Type) (n_components : ℕ) (freshModel : M) (pfit : M → Chunk → Option M)
        (tr inv : M → Chunk → Chunk) (model : M) (h : Store) (a din : ℕ),
        a < h.len → din < h.len →
        (∀ (s : Store) (aout : ℕ),
            IncrementalPCA.runH n_components freshModel pfit tr inv model h din =
              .ok s aout → s.read a = h.read a ∧ h.len ≤ s.len ∧ aout < s.len) ∧
        (∀ s : Store,
            IncrementalPCA.runH n_components freshModel pfit tr inv model h din =
              .raised s → s.read a = h.read a ∧ h.len ≤ s.len)) ∧
    (∀ (M : Type) (n_components : ℕ) (freshModel : M) (pfit : M → Chunk → Option M)
        (tr inv : M → Chunk → Chunk) (model : M) (h : Store) (din : ℕ)
        (s : Store) (aout : ℕ),
        IncrementalPCA.runH n_components freshModel pfit tr inv model h din =
          .ok s aout →
        ∃ m2 : M, (s, aout) = PCA.runH n_components (tr m2) (inv m2) h din) ∧
    (∀ fs : List HFilter, (∀ f ∈ fs, PreservesLive f) →
      ∀ (h : Store) (araw : ℕ), araw < h.len →
        (transformStepH fs h araw).2.1 = h.read araw) := by
  refine ⟨differential_runH_preserves, bandpass_runH_preserves, pca_runH_preserves,
    kpca_runH_preserves, spca_runH_preserves, ?_, ?_, ?_⟩
  · intro M n fresh pfit tr inv model h a din ha hdin
    exact ipca_runH_preserves n fresh pfit tr inv model h a din ha hdin
  · intro M n fresh pfit tr inv model h din s aout hs
    exact ipca_ok_projects n fresh pfit tr inv model h din s aout hs
  · intro fs hall h araw haraw
    exact (pipelineRunH_preserves fs hall h araw araw haraw haraw).1

/-- C10 witness: a one-array store pushed through a pipeline holding a
Differential, a BandPass, a KPCA and an SPCA; the emitted raw element is
the stored chunk. -/
theorem C10_no_input_mutation_witness :
    (transformStepH [Differential.runH, BandPass.runH (fun c => c),
        KPCA.runH 2 id id (fun _ => false), SPCA.runH 2 id id]
        ⟨fun b => if b = 0 then some [[5], [9]] else none, 1⟩ 0).2.1 =
      Store.read ⟨fun b => if b = 0 then some [[5], [9]] else none, 1⟩ 0 :=
  C10_no_input_mutation.2.2.2.2.2.2.2
    [Differential.runH, BandPass.runH (fun c => c),
      KPCA.runH 2 id id (fun _ => false), SPCA.runH 2 id id]
    (by
      intro f hf
      rcases List.mem_cons.1 hf with rfl | hf2
      · exact C10_no_input_mutation.1
      · rcases List.mem_cons.1 hf2 with rfl | hf3
        · exact C10_no_input_mutation.2.1 (fun c => c)
        · rcases List.mem_cons.1 hf3 with rfl | hf4
          · exact C10_no_input_mutation.2.2.2.1 2 id id (fun _ => false)
          · rcases List.mem_cons.1 hf4 with rfl | hf5
            · exact C10_no_input_mutation.2.2.2.2.1 2 id id
            · simp at hf5)
    ⟨fun b => if b = 0 then some [[5], [9]] else none, 1⟩ 0 (by decide)

end MEGDSP
